import Mathlib

/-!
Shallow embedding of the html5-typescript-canvas software rasterizer
(`src/source/engine` and the effect kernels), together with theorems
settling the specification claims about it.

Conventions used throughout:
* JS `number` values that the code only ever holds as integers are
  modelled as `ℤ` or `ℕ`; genuinely fractional quantities are modelled
  over `ℚ` (exact rational arithmetic standing in for IEEE doubles) or
  `ℝ` where trigonometric functions are involved.
* A `Uint32Array` is a `List ℕ`, each entry the stored unsigned 32-bit
  value; a `Uint8Array` is a `List ℕ` with entries below 256.  A JS
  write to an index outside the array is silently dropped, and a read
  outside the array yields `undefined`, which the bitwise channel
  extractions coerce to 0; reads are therefore modelled with default 0.
-/

namespace Canvas

/-! ### Color4 (plain revision of color4.ts, no cache)

The class stores four public channel fields.  `toAABBGGRR` computes
`alpha << 24 | red << 0 | green << 8 | blue << 16`; for channel values
in [0,255] (the invariant `clamp` establishes on construction) the
bitwise-or combines disjoint byte ranges, and the unsigned 32-bit value
a `Uint32Array` stores for the JS signed result is exactly the weighted
sum below.  `fromAABBGGRR` extracts `(color >> k) & 0xff`; for a stored
value below 2^32 this is the div/mod byte extraction below (the JS
arithmetic shift of a sign-extended value agrees with the logical one
after masking with 0xff). -/

structure Color4 where
  alpha : ℕ
  red : ℕ
  green : ℕ
  blue : ℕ
  deriving Repr, DecidableEq

/-- All four channels are integers in [0,255]: the invariant `clamp`
(`Math.max(0, Math.min(255, Math.floor(value)))`) establishes. -/
def Color4.Valid (c : Color4) : Prop :=
  c.alpha < 256 ∧ c.red < 256 ∧ c.green < 256 ∧ c.blue < 256

instance (c : Color4) : Decidable c.Valid := by
  unfold Color4.Valid; infer_instance

/-- Packing `alpha << 24 | red << 0 | green << 8 | blue << 16` (AABBGGRR). -/
def Color4.toAABBGGRR (c : Color4) : ℕ :=
  c.alpha * 2 ^ 24 + c.blue * 2 ^ 16 + c.green * 2 ^ 8 + c.red

/-- Packing `alpha << 24 | red << 16 | green << 8 | blue << 0` (AARRGGBB). -/
def Color4.toAARRGGBB (c : Color4) : ℕ :=
  c.alpha * 2 ^ 24 + c.red * 2 ^ 16 + c.green * 2 ^ 8 + c.blue

/-- Decomposition `alpha = (c >> 24) & 0xff; red = (c >> 0) & 0xff; green = (c >> 8) & 0xff;
blue = (c >> 16) & 0xff`. -/
def Color4.fromAABBGGRR (v : ℕ) : Color4 :=
  ⟨v / 2 ^ 24 % 256, v % 256, v / 2 ^ 8 % 256, v / 2 ^ 16 % 256⟩

/-- Decomposition `alpha = (c >> 24) & 0xff; red = (c >> 16) & 0xff; green = (c >> 8) & 0xff;
blue = (c >> 0) & 0xff`. -/
def Color4.fromARRGGBB (v : ℕ) : Color4 :=
  ⟨v / 2 ^ 24 % 256, v / 2 ^ 16 % 256, v / 2 ^ 8 % 256, v % 256⟩

theorem Color4.fromAABBGGRR_toAABBGGRR (c : Color4) (h : c.Valid) :
    Color4.fromAABBGGRR c.toAABBGGRR = c := by
  obtain ⟨ha, hr, hg, hb⟩ := h
  cases c
  simp only [Color4.fromAABBGGRR, Color4.toAABBGGRR, Color4.mk.injEq] at *
  refine ⟨?_, ?_, ?_, ?_⟩ <;> omega

theorem Color4.fromARRGGBB_toAARRGGBB (c : Color4) (h : c.Valid) :
    Color4.fromARRGGBB c.toAARRGGBB = c := by
  obtain ⟨ha, hr, hg, hb⟩ := h
  cases c
  simp only [Color4.fromARRGGBB, Color4.toAARRGGBB, Color4.mk.injEq] at *
  refine ⟨?_, ?_, ?_, ?_⟩ <;> omega

/-- C2: decomposing the packed value in the same byte-order convention
recomposes the same color: for every Color4 with channel values in
[0,255], `fromAABBGGRR (toAABBGGRR c) = c` and
`fromARRGGBB (toAARRGGBB c) = c`, channel by channel. -/
theorem claim_C2_roundtrip_same_convention (c : Color4) (h : c.Valid) :
    Color4.fromAABBGGRR c.toAABBGGRR = c ∧
    Color4.fromARRGGBB c.toAARRGGBB = c :=
  ⟨Color4.fromAABBGGRR_toAABBGGRR c h, Color4.fromARRGGBB_toAARRGGBB c h⟩

/-- Witness for C2 at the concrete color (alpha 255, red 1, green 2, blue 3). -/
theorem claim_C2_roundtrip_same_convention_witness :
    Color4.Valid ⟨255, 1, 2, 3⟩ ∧
    (Color4.fromAABBGGRR (Color4.toAABBGGRR ⟨255, 1, 2, 3⟩) = ⟨255, 1, 2, 3⟩ ∧
     Color4.fromARRGGBB (Color4.toAARRGGBB ⟨255, 1, 2, 3⟩) = ⟨255, 1, 2, 3⟩) :=
  ⟨by decide, claim_C2_roundtrip_same_convention ⟨255, 1, 2, 3⟩ (by decide)⟩

/-! ### Color4 (caching revision of color4.ts)

This revision keeps the four public channel fields, plus a private
`cache: number | null` and a `caching: boolean` constructor flag.
`fromAABBGGRR`/`fromARRGGBB` assign the channels and then set
`this.cache = color` unconditionally.  `toAABBGGRR`/`toAARRGGBB` first
populate a `null` cache when `caching` is set, then return
`this.cache ?? this.get…()`.  Channel fields are public and mutated by
plain field assignment, which touches nothing else.  The cached packed
value is stored here as the unsigned 32-bit value the callers feed in
or store (the JS number may be the sign-extended equivalent; all
observations go through byte masks or a `Uint32Array`, which agree). -/

structure Color4C where
  alpha : ℕ
  red : ℕ
  green : ℕ
  blue : ℕ
  cache : Option ℕ
  caching : Bool
  deriving Repr, DecidableEq

/-- The constructor: channels clamped to [0,255], `cache = null`,
`caching` stored from the parameter (default `true`). -/
def Color4C.mk' (alpha red green blue : ℕ) (caching : Bool) : Color4C :=
  ⟨min alpha 255, min red 255, min green 255, min blue 255, none, caching⟩

/-- The private helper `getAABBGGRR` of the caching revision. -/
def Color4C.getAABBGGRR (c : Color4C) : ℕ :=
  c.alpha * 2 ^ 24 + c.blue * 2 ^ 16 + c.green * 2 ^ 8 + c.red

/-- The private helper `getAARRGGBB` of the caching revision. -/
def Color4C.getAARRGGBB (c : Color4C) : ℕ :=
  c.alpha * 2 ^ 24 + c.red * 2 ^ 16 + c.green * 2 ^ 8 + c.blue

/-- Method `fromAABBGGRR` of the caching revision: assigns the channels from the
byte extractions and sets `this.cache = color`. -/
def Color4C.fromAABBGGRR (c : Color4C) (v : ℕ) : Color4C :=
  { c with
    alpha := v / 2 ^ 24 % 256, red := v % 256
    green := v / 2 ^ 8 % 256, blue := v / 2 ^ 16 % 256
    cache := some v }

/-- Method `fromARRGGBB` of the caching revision: assigns the channels from the
byte extractions and sets `this.cache = color`. -/
def Color4C.fromARRGGBB (c : Color4C) (v : ℕ) : Color4C :=
  { c with
    alpha := v / 2 ^ 24 % 256, red := v / 2 ^ 16 % 256
    green := v / 2 ^ 8 % 256, blue := v % 256
    cache := some v }

/-- Method `toAABBGGRR` of the caching revision: populates a `null` cache when
`caching` is on, then returns `this.cache ?? this.getAABBGGRR()`.
Returns the updated object (the cache write is a mutation) and the value. -/
def Color4C.toAABBGGRR (c : Color4C) : Color4C × ℕ :=
  let c' := if c.caching = true ∧ c.cache = none
    then { c with cache := some c.getAABBGGRR } else c
  (c', c'.cache.getD c'.getAABBGGRR)

/-- Method `toAARRGGBB` of the caching revision: populates a `null` cache when
`caching` is on, then returns `this.cache ?? this.getAARRGGBB()`. -/
def Color4C.toAARRGGBB (c : Color4C) : Color4C × ℕ :=
  let c' := if c.caching = true ∧ c.cache = none
    then { c with cache := some c.getAARRGGBB } else c
  (c', c'.cache.getD c'.getAARRGGBB)

/-- C4 (code bug): on the caching revision, the cached packed integer is
stale after a channel mutation.  Construct `Color4({alpha: 0, red: 1,
green: 0, blue: 0, caching: true})`, call `toAABBGGRR()` (populates the
cache with 1), then assign `red = 2` and call `toAABBGGRR()` again: the
call returns the stale cached 1, while the packing of the current
channel values is 2.  This contradicts the claim that the cache is
invalidated or unused after any channel mutation. -/
theorem claim_C4_stale_cache_after_mutation :
    (let c0 := Color4C.mk' 0 1 0 0 true
     let c1 := c0.toAABBGGRR.1
     let c2 := { c1 with red := 2 }
     c2.toAABBGGRR.2 = 1 ∧ c2.getAABBGGRR = 2 ∧ c2.toAABBGGRR.2 ≠ c2.getAABBGGRR) := by
  decide

/-- C5 (code bug): on the caching revision, decomposing in AABBGGRR and
recomposing in AARRGGBB *is* the identity, because `fromAABBGGRR` leaves
`cache = v` and `toAARRGGBB` returns the cache.  At `v = 255`
(red byte 255, blue byte 0, so the claim requires a non-identical
result — the pure recomposition would give `0x00FF0000 = 16711680`),
the code returns 255 = v. -/
theorem claim_C5_cross_convention_returns_cache :
    (let c := (Color4C.mk' 255 0 0 0 true).fromAABBGGRR 255
     c.toAARRGGBB.2 = 255 ∧ c.getAARRGGBB = 16711680) := by
  decide

/-! ### Clipping (clipping.ts) and the Blitter state

`Clipping` stores `minX, minY, maxX, maxY` (an `Int16Array`; the demos
only ever use small nonnegative screen bounds, modelled as `ℤ`).
`outside` is `x < minX || x >= maxX || y < minY || y >= maxY`;
`inside` is `x >= minX && x <= maxX && y >= minY && y <= maxY`.
The `Blitter` fields the pixel primitives consult are `width`, `height`
(floored to integers by `create`) and `clipping` (initialised by
`create` to `(0, 0, width, height)`). -/

structure Clipping where
  minX : ℤ
  minY : ℤ
  maxX : ℤ
  maxY : ℤ
  deriving Repr, DecidableEq

def Clipping.outside (c : Clipping) (x y : ℤ) : Bool :=
  x < c.minX || x ≥ c.maxX || y < c.minY || y ≥ c.maxY

def Clipping.inside (c : Clipping) (x y : ℤ) : Bool :=
  x ≥ c.minX && x ≤ c.maxX && y ≥ c.minY && y ≤ c.maxY

structure Blitter where
  width : ℤ
  height : ℤ
  clipping : Clipping
  deriving Repr, DecidableEq

/-- A `Uint32Array` read `buf[i]`: the stored value for a valid index,
otherwise `undefined`, which the callers' bitwise arithmetic coerces
to 0. -/
def bufRead (buf : List ℕ) (i : ℤ) : ℕ :=
  if 0 ≤ i then buf.getD i.toNat 0 else 0

/-- A `Uint32Array` write `buf[i] = v`: stores at a valid index and is
silently dropped outside the array (`List.set` already ignores indices
beyond the length). -/
def bufWrite (buf : List ℕ) (i : ℤ) (v : ℕ) : List ℕ :=
  if 0 ≤ i then buf.set i.toNat v else buf

/-! ### setPixel / getPixel (blitter/pixel.ts) -/

/-- The clipping guard both pixel primitives test:
`x < minX || x >= maxX || y < minY || y >= maxY`. -/
def clipRejects (b : Blitter) (x y : ℤ) : Prop :=
  x < b.clipping.minX ∨ x ≥ b.clipping.maxX ∨
    y < b.clipping.minY ∨ y ≥ b.clipping.maxY

instance (b : Blitter) (x y : ℤ) : Decidable (clipRejects b x y) := by
  unfold clipRejects; infer_instance

/-- Primitive `setPixel(blitter, x, y, color, clip, backbuffer)`: when `clip` is
set and `(x, y)` violates the clipping bounds, return without writing;
otherwise `backbuffer[y * blitter.width + x] = color.toAABBGGRR()`. -/
def setPixel (b : Blitter) (x y : ℤ) (color : Color4) (clip : Bool)
    (backbuffer : List ℕ) : List ℕ :=
  if clip = true ∧ clipRejects b x y then
    backbuffer
  else
    bufWrite backbuffer (y * b.width + x) color.toAABBGGRR

/-- Primitive `getPixel(blitter, x, y, clip, backbuffer)`: when `clip` is set and
`(x, y)` violates the clipping bounds, return `null`; otherwise
`new Color4().fromAABBGGRR(backbuffer[y * blitter.width + x])`. -/
def getPixel (b : Blitter) (x y : ℤ) (clip : Bool)
    (backbuffer : List ℕ) : Option Color4 :=
  if clip = true ∧ clipRejects b x y then
    none
  else
    some (Color4.fromAABBGGRR (bufRead backbuffer (y * b.width + x)))

/-- The clipping region `create` installs: the full buffer. -/
def fullClip (w h : ℤ) : Clipping := ⟨0, 0, w, h⟩

/-- C1: on a backbuffer of W×H whose clip region is the full buffer, for
a valid color, `setPixel` then `getPixel` with clipping round-trips the
color strictly inside the bounds; outside the bounds `getPixel` returns
the null sentinel and `setPixel` leaves the buffer unchanged. -/
theorem claim_C1_set_get_pixel_clipped (w h : ℤ) (x y : ℤ) (c : Color4)
    (backbuffer : List ℕ) (b : Blitter)
    (hb : b = ⟨w, h, fullClip w h⟩)
    (hc : c.Valid)
    (hlen : (backbuffer.length : ℤ) = w * h) :
    ((0 ≤ x ∧ x < w ∧ 0 ≤ y ∧ y < h) →
      getPixel b x y true (setPixel b x y c true backbuffer) = some c) ∧
    (¬(0 ≤ x ∧ x < w ∧ 0 ≤ y ∧ y < h) →
      getPixel b x y true backbuffer = none ∧
      setPixel b x y c true backbuffer = backbuffer) := by
  subst hb
  constructor
  · rintro ⟨hx0, hxw, hy0, hyh⟩
    have hrej : ¬ clipRejects ⟨w, h, fullClip w h⟩ x y := by
      simp only [clipRejects, fullClip]; omega
    have hw0 : 0 < w := lt_of_le_of_lt hx0 hxw
    have hidx : 0 ≤ y * w + x := by
      have := mul_nonneg hy0 hw0.le
      omega
    have hidxlt : (y * w + x).toNat < backbuffer.length := by
      have h1 : y * w + x < w * h := by nlinarith
      omega
    rw [setPixel, if_neg (by simp [hrej]), getPixel, if_neg (by simp [hrej])]
    rw [bufWrite, if_pos hidx, bufRead, if_pos hidx]
    rw [List.getD_eq_getElem _ _ (by simpa using hidxlt)]
    rw [List.getElem_set_self (by simpa using hidxlt)]
    rw [Color4.fromAABBGGRR_toAABBGGRR c hc]
  · intro hout
    have hrej : clipRejects ⟨w, h, fullClip w h⟩ x y := by
      simp only [clipRejects, fullClip]; omega
    refine ⟨?_, ?_⟩
    · rw [getPixel, if_pos ⟨rfl, hrej⟩]
    · rw [setPixel, if_pos ⟨rfl, hrej⟩]

/-- Witness for C1 on a 2×2 buffer: the inside case at (1, 1) and the
outside case at (5, 1). -/
theorem claim_C1_set_get_pixel_clipped_witness :
    (getPixel ⟨2, 2, fullClip 2 2⟩ 1 1 true
        (setPixel ⟨2, 2, fullClip 2 2⟩ 1 1 ⟨255, 1, 2, 3⟩ true [0, 0, 0, 0]) =
      some ⟨255, 1, 2, 3⟩) ∧
    (getPixel ⟨2, 2, fullClip 2 2⟩ 5 1 true [0, 0, 0, 0] = none ∧
      setPixel ⟨2, 2, fullClip 2 2⟩ 5 1 ⟨255, 1, 2, 3⟩ true [0, 0, 0, 0] = [0, 0, 0, 0]) := by
  refine ⟨?_, ?_⟩
  · exact (claim_C1_set_get_pixel_clipped 2 2 1 1 ⟨255, 1, 2, 3⟩ [0, 0, 0, 0] _
      rfl (by decide) (by decide)).1 (by decide)
  · exact (claim_C1_set_get_pixel_clipped 2 2 5 1 ⟨255, 1, 2, 3⟩ [0, 0, 0, 0] _
      rfl (by decide) (by decide)).2 (by decide)

/-! ### The public Blitter interface (blitter.ts `Blitter.setPixel` /
`Blitter.getPixel`)

Both public methods take arbitrary (possibly fractional) coordinates
and delegate to the pixel primitives with
`Math.floor(x), Math.floor(y)`. -/

/-- Method `Blitter.setPixel(x, y, color, clip, backbuffer)`:
`setPixel(this, Math.floor(x), Math.floor(y), color, clip, backbuffer)`. -/
def Blitter.setPixelPub (b : Blitter) (x y : ℚ) (color : Color4)
    (clip : Bool) (backbuffer : List ℕ) : List ℕ :=
  setPixel b ⌊x⌋ ⌊y⌋ color clip backbuffer

/-- Method `Blitter.getPixel(x, y, clip, backbuffer)`:
`getPixel(this, Math.floor(x), Math.floor(y), clip, backbuffer)`. -/
def Blitter.getPixelPub (b : Blitter) (x y : ℚ) (clip : Bool)
    (backbuffer : List ℕ) : Option Color4 :=
  getPixel b ⌊x⌋ ⌊y⌋ clip backbuffer

/-- C10: for every rational coordinate pair, the public blitter methods
behave exactly like the integer-coordinate primitives applied to the
floored coordinates, so fractional input has defined behavior at this
interface; in particular on integer coordinates the public methods and
the primitives coincide. -/
theorem claim_C10_public_interface_floors (b : Blitter) (x y : ℚ)
    (color : Color4) (clip : Bool) (backbuffer : List ℕ) :
    b.setPixelPub x y color clip backbuffer =
        setPixel b ⌊x⌋ ⌊y⌋ color clip backbuffer ∧
      b.getPixelPub x y clip backbuffer = getPixel b ⌊x⌋ ⌊y⌋ clip backbuffer ∧
      ∀ i j : ℤ, b.setPixelPub i j color clip backbuffer =
          setPixel b i j color clip backbuffer ∧
        b.getPixelPub i j clip backbuffer = getPixel b i j clip backbuffer := by
  refine ⟨rfl, rfl, fun i j => ?_⟩
  simp [Blitter.setPixelPub, Blitter.getPixelPub]

/-! ### drawBuffer (blitter/draw.ts)

`drawBuffer(blitter, width, height, pixels, x, y, clip, backbuffer)`
computes the effective bounds (the clip region when `clip`, else the
full destination), intersects them with the source rectangle offset by
`(x, y)`, returns early if the intersection is empty, and otherwise
copies the intersection row by row via
`backbuffer.set(pixels.subarray(sourceIndex, sourceIndex + rowWidth), destIndex)`.
The bulk row copy is modelled element by element with the out-of-range
read/write conventions of `bufRead`/`bufWrite` (`subarray` clamps its
range and `set` rejects out-of-range targets; inside the intersection
arithmetic of the theorems below every access is in range, so only the
in-range behavior matters). -/

/-- One row copy `backbuffer.set(pixels.subarray(s, s + len), d)`,
element by element. -/
def copyRow (pixels : List ℕ) (s : ℤ) (backbuffer : List ℕ) (d : ℤ)
    (len : ℕ) : List ℕ :=
  (List.range len).foldl
    (fun acc j => bufWrite acc (d + j) (bufRead pixels (s + j))) backbuffer

def drawBuffer (b : Blitter) (width height : ℤ) (pixels : List ℕ)
    (x y : ℤ) (clip : Bool) (backbuffer : List ℕ) : List ℕ :=
  let clipMinX := if clip then b.clipping.minX else 0
  let clipMinY := if clip then b.clipping.minY else 0
  let clipMaxX := if clip then b.clipping.maxX else b.width
  let clipMaxY := if clip then b.clipping.maxY else b.height
  let startX := max clipMinX x
  let startY := max clipMinY y
  let endX := min clipMaxX (x + width)
  let endY := min clipMaxY (y + height)
  if startX ≥ endX ∨ startY ≥ endY then backbuffer
  else
    let sourceStartX := max 0 (clipMinX - x)
    let sourceStartY := max 0 (clipMinY - y)
    (List.range (endY - startY).toNat).foldl
      (fun acc k =>
        let row := startY + k
        let sourceIndex := (sourceStartY + (row - startY)) * width + sourceStartX
        let destIndex := row * b.width + startX
        copyRow pixels sourceIndex acc destIndex (endX - startX).toNat)
      backbuffer

/-- C3: if the source rectangle of size `width × height` offset to
`(x, y)` shares no integer point with the destination clip region, then
`drawBuffer` with clipping returns the destination backbuffer
unchanged. -/
theorem claim_C3_drawBuffer_outside_clip_noop (b : Blitter)
    (width height : ℤ) (pixels : List ℕ) (x y : ℤ) (backbuffer : List ℕ)
    (hdisj : ∀ px py : ℤ,
      x ≤ px ∧ px < x + width ∧ y ≤ py ∧ py < y + height →
      b.clipping.outside px py = true) :
    drawBuffer b width height pixels x y true backbuffer = backbuffer := by
  rw [drawBuffer]
  simp only [if_true]
  have hguard : max b.clipping.minX x ≥ min b.clipping.maxX (x + width) ∨
      max b.clipping.minY y ≥ min b.clipping.maxY (y + height) := by
    by_contra hcon
    push_neg at hcon
    obtain ⟨h1, h2⟩ := hcon
    have := hdisj (max b.clipping.minX x) (max b.clipping.minY y)
      (by constructor <;> omega)
    simp only [Clipping.outside, Bool.or_eq_true, decide_eq_true_eq] at this
    omega
  rw [if_pos (by simpa using hguard)]

/-- Witness for C3: a 1×1 source at offset (5, 5) against a 2×2
destination clipped to the full buffer. -/
theorem claim_C3_drawBuffer_outside_clip_noop_witness :
    drawBuffer ⟨2, 2, fullClip 2 2⟩ 1 1 [7] 5 5 true [0, 0, 0, 0] = [0, 0, 0, 0] :=
  claim_C3_drawBuffer_outside_clip_noop ⟨2, 2, fullClip 2 2⟩ 1 1 [7] 5 5
    [0, 0, 0, 0] (fun px py h => by
      simp only [Clipping.outside, fullClip, Bool.or_eq_true, decide_eq_true_eq]
      omega)

/-! ### Fire propagation (10fire effect.ts, `render` propagation loop)

The fire buffer is a `Uint8Array` of `width * height` intensities
(`height` counts two extra source rows at the bottom).  After the two
source rows are refilled, the propagation loop walks `pointer` from 0
over the first `height - 1` rows and performs, in place,

  `fire[pointer] = (fire[pointer+width] + fire[pointer+width-1] +
                    fire[pointer+width+1] + fire[pointer+width+width] - 1) / 4`

The `Uint8Array` store truncates the quotient toward zero and reduces
mod 256; for a sum of 0 the JS value `-0.25` truncates to 0, which the
saturating `ℕ` subtraction below reproduces.  A read past the end of
the buffer yields `undefined`, poisoning the sum with `NaN`, which the
store coerces to 0 — hence the length guard in `fireUpdate`.  (For
`width ≥ 1` the largest of the four read offsets is `pointer + 2*width`,
so that single guard is exact.) -/

theorem getD_set_of_ne (l : List ℕ) {i j : ℕ} (v : ℕ) (h : i ≠ j) :
    (l.set i v).getD j 0 = l.getD j 0 := by
  rcases Nat.lt_or_ge j l.length with hj | hj
  · rw [List.getD_eq_getElem _ _ (by simpa using hj), List.getD_eq_getElem _ _ hj,
      List.getElem_set_ne h]
  · rw [List.getD_eq_default _ _ (by simpa using hj), List.getD_eq_default _ _ hj]

theorem getD_set_self_of_lt (l : List ℕ) {i : ℕ} (v : ℕ) (h : i < l.length) :
    (l.set i v).getD i 0 = v := by
  rw [List.getD_eq_getElem _ _ (by simpa using h), List.getElem_set_self (by simpa using h)]

/-- The value the propagation loop stores at cell `i` of `buf`:
`(sum of the four cells below - 1) / 4`, truncated and reduced mod 256,
or 0 when the reads run past the buffer (the `NaN` path). -/
def fireUpdate (buf : List ℕ) (w i : ℕ) : ℕ :=
  if i + 2 * w < buf.length then
    (buf.getD (i + w - 1) 0 + buf.getD (i + w) 0 +
      buf.getD (i + w + 1) 0 + buf.getD (i + 2 * w) 0 - 1) / 4 % 256
  else 0

/-- The in-place propagation pass: `pointer` runs over the cells of the
first `h - 1` rows, each written from the buffer as it stands. -/
def firePass (w h : ℕ) (fire : List ℕ) : List ℕ :=
  (List.range ((h - 1) * w)).foldl (fun buf i => buf.set i (fireUpdate buf w i)) fire

theorem firePass_length (w h : ℕ) (fire : List ℕ) :
    (firePass w h fire).length = fire.length := by
  rw [firePass]
  generalize (h - 1) * w = n
  induction n generalizing fire with
  | zero => simp
  | succ m ih =>
    rw [List.range_succ, List.foldl_append, List.foldl_cons, List.foldl_nil]
    rw [List.length_set, ih]

theorem firePass_partial_length (w n : ℕ) (fire : List ℕ) :
    ((List.range n).foldl (fun buf i => buf.set i (fireUpdate buf w i)) fire).length =
      fire.length := by
  induction n generalizing fire with
  | zero => simp
  | succ m ih =>
    rw [List.range_succ, List.foldl_append, List.foldl_cons, List.foldl_nil]
    rw [List.length_set, ih]

/-- The in-place pass only ever writes cell `i` at step `i`, so after the
first `n` steps every cell at index `n` or beyond still holds its
original value. -/
theorem firePass_partial_above (w n : ℕ) (fire : List ℕ) (j : ℕ) (hj : n ≤ j) :
    ((List.range n).foldl (fun buf i => buf.set i (fireUpdate buf w i)) fire).getD j 0 =
      fire.getD j 0 := by
  induction n generalizing fire with
  | zero => simp
  | succ m ih =>
    rw [List.range_succ, List.foldl_append, List.foldl_cons, List.foldl_nil]
    rw [getD_set_of_ne _ _ (by omega), ih _ (by omega)]

/-- After the first `n` steps of the pass, every already-processed cell
`i < n` holds `fireUpdate fire w i` computed from the *original* buffer:
all four reads of step `i` target indices at or above `i`, which
`firePass_partial_above` shows are untouched at that point. -/
theorem firePass_partial_value (w n : ℕ) (hw : 1 ≤ w) (fire : List ℕ)
    (i : ℕ) (hi : i < n) (hlen : n ≤ fire.length) :
    ((List.range n).foldl (fun buf i => buf.set i (fireUpdate buf w i)) fire).getD i 0 =
      fireUpdate fire w i := by
  induction n generalizing i with
  | zero => omega
  | succ m ih =>
    rw [List.range_succ, List.foldl_append, List.foldl_cons, List.foldl_nil]
    rcases Nat.lt_or_ge i m with him | him
    · rw [getD_set_of_ne _ _ (by omega), ih i him (by omega)]
    · have him' : i = m := by omega
      subst him'
      have hlen' :
          ((List.range i).foldl (fun buf k => buf.set k (fireUpdate buf w k)) fire).length =
            fire.length := firePass_partial_length w i fire
      rw [getD_set_self_of_lt _ _ (by omega)]
      have hupd : fireUpdate
          ((List.range i).foldl (fun buf k => buf.set k (fireUpdate buf w k)) fire) w i =
          fireUpdate fire w i := by
        rw [fireUpdate, fireUpdate, hlen']
        rcases Nat.lt_or_ge (i + 2 * w) fire.length with hin | hin
        · rw [if_pos hin, if_pos hin]
          rw [firePass_partial_above w i fire (i + w - 1) (by omega),
            firePass_partial_above w i fire (i + w) (by omega),
            firePass_partial_above w i fire (i + w + 1) (by omega),
            firePass_partial_above w i fire (i + 2 * w) (by omega)]
        · rw [if_neg (by omega), if_neg (by omega)]
      rw [hupd]

/-- Counterexample to C6: in a 3-wide, 4-high fire buffer (two source
rows at the bottom) whose cells below cell 1 sum to 4, the propagated
value at cell 1 is `(4 - 1) / 4 = 0`, not the claimed `4 / 4 = 1`. -/
theorem claim_C6_counterexample :
    (firePass 3 4 [0, 0, 0, 1, 1, 1, 1, 1, 0, 0, 0, 0]).getD 1 0 ≠
      ([0, 0, 0, 1, 1, 1, 1, 1, 0, 0, 0, 0].getD (1 + 3 - 1) 0 +
        [0, 0, 0, 1, 1, 1, 1, 1, 0, 0, 0, 0].getD (1 + 3) 0 +
        [0, 0, 0, 1, 1, 1, 1, 1, 0, 0, 0, 0].getD (1 + 3 + 1) 0 +
        [0, 0, 0, 1, 1, 1, 1, 1, 0, 0, 0, 0].getD (1 + 2 * 3) 0) / 4 := by
  decide

/-- C6 as amended: for every cell of the rows above the two source rows,
the propagated intensity is the sum of the four cells at flat offsets
`width - 1`, `width`, `width + 1` and `2 * width` below it (for interior
columns: below-left, below, below-right, and two rows below), *minus
one*, divided by 4 with truncation.  The pass reads each of those cells
before overwriting it, so the values are taken from the buffer as it
stood when the pass began. -/
theorem claim_C6_fire_propagation_amended (w h : ℕ) (fire : List ℕ)
    (hw : 1 ≤ w) (hlen : fire.length = w * h)
    (hbyte : ∀ v ∈ fire, v < 256)
    (x y : ℕ) (hx : x < w) (hy : y + 3 ≤ h) :
    (firePass w h fire).getD (y * w + x) 0 =
      (fire.getD (y * w + x + w - 1) 0 + fire.getD (y * w + x + w) 0 +
        fire.getD (y * w + x + w + 1) 0 + fire.getD (y * w + x + 2 * w) 0 - 1) / 4 := by
  obtain ⟨k, hk⟩ : ∃ k, h = y + 3 + k := ⟨h - (y + 3), by omega⟩
  subst hk
  have hh1 : (y + 3 + k - 1) * w = (y + 2 + k) * w := by congr 1; omega
  have hi : y * w + x < (y + 3 + k - 1) * w := by
    rw [hh1]; nlinarith
  have hlen' : (y + 3 + k - 1) * w ≤ fire.length := by
    rw [hlen, hh1]; nlinarith
  rw [firePass, firePass_partial_value w ((y + 3 + k - 1) * w) hw fire _ hi hlen']
  have hin : y * w + x + 2 * w < fire.length := by
    rw [hlen]; nlinarith
  rw [fireUpdate, if_pos hin]
  have hgetD : ∀ j : ℕ, fire.getD j 0 < 256 := by
    intro j
    rcases Nat.lt_or_ge j fire.length with hj | hj
    · rw [List.getD_eq_getElem _ _ hj]
      exact hbyte _ (List.getElem_mem hj)
    · rw [List.getD_eq_default _ _ hj]; omega
  have h1 := hgetD (y * w + x + w - 1)
  have h2 := hgetD (y * w + x + w)
  have h3 := hgetD (y * w + x + w + 1)
  have h4 := hgetD (y * w + x + 2 * w)
  omega

/-- Witness for the amended C6 on the concrete 3×4 buffer at cell (1, 0). -/
theorem claim_C6_fire_propagation_amended_witness :
    (firePass 3 4 [0, 0, 0, 2, 2, 2, 2, 2, 0, 0, 0, 0]).getD (0 * 3 + 1) 0 =
      ([0, 0, 0, 2, 2, 2, 2, 2, 0, 0, 0, 0].getD (0 * 3 + 1 + 3 - 1) 0 +
        [0, 0, 0, 2, 2, 2, 2, 2, 0, 0, 0, 0].getD (0 * 3 + 1 + 3) 0 +
        [0, 0, 0, 2, 2, 2, 2, 2, 0, 0, 0, 0].getD (0 * 3 + 1 + 3 + 1) 0 +
        [0, 0, 0, 2, 2, 2, 2, 2, 0, 0, 0, 0].getD (0 * 3 + 1 + 2 * 3) 0 - 1) / 4 :=
  claim_C6_fire_propagation_amended 3 4 [0, 0, 0, 2, 2, 2, 2, 2, 0, 0, 0, 0]
    (by decide) (by decide) (by decide) 1 0 (by decide) (by decide)

/-! ### Star3D (14stars3d/star3d.ts)

Positions and the derived screen constants are rationals (exact
arithmetic standing in for IEEE doubles; every quantity in the
counterexample below is a dyadic rational, on which the two agree).
`Math.round` rounds half toward positive infinity: `⌊q + 1/2⌋`.
The star's random reset inputs are passed in as parameters `rx`, `ry`
(the code draws them from `randomRange(-centerXscaled, centerXscaled)`,
i.e. min inclusive, max exclusive). -/

/-- JS `Math.round`. -/
def jsRound (q : ℚ) : ℤ := ⌊q + 1 / 2⌋

structure Star3D where
  px : ℚ
  py : ℚ
  pz : ℚ
  width : ℚ
  height : ℚ
  near : ℚ
  far : ℚ
  centerX : ℚ
  centerY : ℚ
  centerXscaled : ℚ
  centerYscaled : ℚ
  scale : ℚ
  x : ℤ
  y : ℤ
  deriving Repr, DecidableEq

/-- The Star3D constructor: stores position and screen parameters and
derives `centerX = width / 2`, `centerY = height / 2`,
`scale = far / Math.max(centerX, centerY)` and the scaled reset bounds.
The projected coordinates are definitely-assigned later (`x!`, `y!`);
they start at an arbitrary value, taken to be 0. -/
def mkStar3D (px py pz width height near far : ℚ) : Star3D :=
  let centerX := width / 2
  let centerY := height / 2
  let scale := far / max centerX centerY
  ⟨px, py, pz, width, height, near, far, centerX, centerY,
    centerX * scale, centerY * scale, scale, 0, 0⟩

/-- Method `Star3D.projection`: `x = Math.round((position.x / position.z) * centerX + centerX)`
and likewise for `y`. -/
def Star3D.projection (s : Star3D) : Star3D :=
  { s with
    x := jsRound (s.px / s.pz * s.centerX + s.centerX)
    y := jsRound (s.py / s.pz * s.centerY + s.centerY) }

/-- Method `Star3D.reset`: position moves to the random point `(rx, ry)` within
the scaled bounds, at the far plane. -/
def Star3D.reset (s : Star3D) (rx ry : ℚ) : Star3D :=
  { s with px := rx, py := ry, pz := s.far }

/-- Method `Star3D.project(clipping)`: project; if the projected point is
outside the clipping bounds, reset and re-project. -/
def Star3D.project (s : Star3D) (clipping : Clipping) (rx ry : ℚ) : Star3D :=
  let s1 := s.projection
  if clipping.outside s1.x s1.y then (s1.reset rx ry).projection else s1

/-- Counterexample to C7: a 256×256 screen with near plane 1 and far
plane 128 (so `scale = 1` and reset bounds `[-128, 128)`), a star
constructed at position (64, 0, 2) — inside the stated construction
ranges — whose first projection (4224, 128) is outside the screen, and
a reset draw `rx = 255/2, ry = 0` inside `[-128, 128) × [-128, 128)`.
The re-projection lands at `round(255.5) = 256 = width`, which
`Clipping.outside` classifies as outside the visible screen, and render
would write that out-of-bounds pixel (`setPixel` is called with
`clip = false`). -/
theorem claim_C7_counterexample :
    (let s := mkStar3D 64 0 2 256 256 1 128
     let s' := s.project (fullClip 256 256) (255 / 2) 0
     -- the constructed position and the reset draw are inside the
     -- ranges the claim quantifies over
     (s.centerXscaled = 128 ∧ s.centerYscaled = 128 ∧
      -s.centerXscaled ≤ s.px ∧ s.px < s.centerXscaled ∧
      -s.centerYscaled ≤ s.py ∧ s.py < s.centerYscaled ∧
      s.near < s.pz ∧ s.pz ≤ s.far ∧
      -s.centerXscaled ≤ 255 / 2 ∧ (255 / 2 : ℚ) < s.centerXscaled) ∧
     -- yet the coordinates handed to render are outside the screen
     s'.x = 256 ∧ s'.y = 128 ∧ (fullClip 256 256).outside s'.x s'.y = true) := by
  simp only [mkStar3D, Star3D.project, Star3D.projection, Star3D.reset, fullClip,
    Clipping.outside, jsRound]
  norm_num

/-- C7 as amended: under the claim's hypotheses — full-screen clipping,
positive dimensions and far plane, reset draws inside the scaled bounds
— the coordinates `project` leaves for `render` satisfy
`0 ≤ x ≤ width` and `0 ≤ y ≤ height`: they lie inside the screen
extended by one pixel at the exclusive right and bottom edges, and the
re-projection after a reset can land exactly on `width` (resp.
`height`), as the counterexample shows, but never farther out. -/
theorem claim_C7_project_render_bounds_amended
    (px py pz w h near far : ℚ) (W H : ℤ) (rx ry : ℚ)
    (hW : (W : ℚ) = w) (hH : (H : ℚ) = h)
    (hw : 0 < w) (hh : 0 < h) (hfar : 0 < far)
    (s : Star3D) (hs : s = mkStar3D px py pz w h near far)
    (hrx : -s.centerXscaled ≤ rx ∧ rx < s.centerXscaled)
    (hry : -s.centerYscaled ≤ ry ∧ ry < s.centerYscaled) :
    let s' := s.project (fullClip W H) rx ry
    0 ≤ s'.x ∧ (s'.x : ℚ) ≤ w ∧ 0 ≤ s'.y ∧ (s'.y : ℚ) ≤ h := by
  subst hs
  have hcX0 : 0 < w / 2 := by positivity
  have hcY0 : 0 < h / 2 := by positivity
  have hm0 : 0 < max (w / 2) (h / 2) := lt_of_lt_of_le hcX0 (le_max_left _ _)
  -- after a reset inside the scaled bounds, the unrounded re-projected
  -- coordinate lies in [c, 3c) shifted: 0 ≤ r/far*c + c < 2c
  have hscaled : ∀ c r : ℚ, 0 < c → c ≤ max (w / 2) (h / 2) →
      -(c * (far / max (w / 2) (h / 2))) ≤ r →
      r < c * (far / max (w / 2) (h / 2)) →
      0 ≤ r / far * c + c ∧ r / far * c + c < 2 * c := by
    intro c r hc0 hcm hlo hhi
    have hdm1 : c / max (w / 2) (h / 2) ≤ 1 := (div_le_one hm0).mpr hcm
    have e1 : -(c / max (w / 2) (h / 2)) ≤ r / far := by
      rw [le_div_iff₀ hfar]
      have hre : -(c / max (w / 2) (h / 2)) * far =
          -(c * (far / max (w / 2) (h / 2))) := by ring
      linarith [hre ▸ hlo]
    have e2 : r / far < c / max (w / 2) (h / 2) := by
      rw [div_lt_iff₀ hfar]
      have hre : c / max (w / 2) (h / 2) * far =
          c * (far / max (w / 2) (h / 2)) := by ring
      linarith [hre ▸ hhi]
    have t2 : c / max (w / 2) (h / 2) * c ≤ 1 * c :=
      mul_le_mul_of_nonneg_right hdm1 hc0.le
    constructor
    · have t1 : -(c / max (w / 2) (h / 2)) * c ≤ r / far * c :=
        mul_le_mul_of_nonneg_right e1 hc0.le
      nlinarith [t1, t2]
    · have t1 : r / far * c < c / max (w / 2) (h / 2) * c :=
        mul_lt_mul_of_pos_right e2 hc0
      nlinarith [t1, t2]
  -- rounding keeps an unrounded value of [0, 2c) inside [0, Z] for Z = 2c
  have hbound : ∀ (v c : ℚ) (Z : ℤ), 0 ≤ v → v < 2 * c → (Z : ℚ) = 2 * c →
      0 ≤ jsRound v ∧ ((jsRound v : ℤ) : ℚ) ≤ (Z : ℚ) := by
    intro v c Z h0 h2c hZ
    refine ⟨?_, ?_⟩
    · rw [jsRound, Int.le_floor]
      push_cast
      linarith
    · rw [jsRound]
      have hfl : ⌊v + 1 / 2⌋ < Z + 1 := by
        rw [Int.floor_lt]
        push_cast
        rw [hZ]
        linarith
      exact_mod_cast Int.lt_add_one_iff.mp hfl
  simp only [Star3D.project]
  split
  · -- outside: reset to (rx, ry, far) and re-project
    rcases hrx with ⟨hrxlo, hrxhi⟩
    rcases hry with ⟨hrylo, hryhi⟩
    simp only [mkStar3D] at hrxlo hrxhi hrylo hryhi
    have hx := hscaled (w / 2) rx hcX0 (le_max_left _ _) hrxlo hrxhi
    have hy := hscaled (h / 2) ry hcY0 (le_max_right _ _) hrylo hryhi
    have hXB := hbound _ (w / 2) W hx.1 hx.2 (by rw [hW]; ring)
    have hYB := hbound _ (h / 2) H hy.1 hy.2 (by rw [hH]; ring)
    simp only [mkStar3D, Star3D.reset, Star3D.projection]
    refine ⟨hXB.1, ?_, hYB.1, ?_⟩
    · have := hXB.2
      rw [hW] at this
      exact this
    · have := hYB.2
      rw [hH] at this
      exact this
  · -- inside: the first projection already satisfies the screen bounds
    rename_i hins
    simp only [mkStar3D, Star3D.projection, Clipping.outside, fullClip,
      Bool.or_eq_true, decide_eq_true_eq] at hins
    push_neg at hins
    obtain ⟨⟨⟨hx0, hxW⟩, hy0⟩, hyH⟩ := hins
    simp only [mkStar3D, Star3D.projection]
    refine ⟨hx0, ?_, hy0, ?_⟩
    · have hc : ((jsRound (px / pz * (w / 2) + w / 2) : ℤ) : ℚ) ≤ (W : ℚ) := by
        exact_mod_cast hxW.le
      rw [hW] at hc
      exact hc
    · have hc : ((jsRound (py / pz * (h / 2) + h / 2) : ℤ) : ℚ) ≤ (H : ℚ) := by
        exact_mod_cast hyH.le
      rw [hH] at hc
      exact hc

/-- Witness for the amended C7 at the counterexample's screen, with the
star starting already inside the screen (no reset). -/
theorem claim_C7_project_render_bounds_amended_witness :
    (let s' := (mkStar3D 0 0 64 256 256 1 128).project (fullClip 256 256) 0 0
     0 ≤ s'.x ∧ (s'.x : ℚ) ≤ 256 ∧ 0 ≤ s'.y ∧ (s'.y : ℚ) ≤ 256) :=
  claim_C7_project_render_bounds_amended 0 0 64 256 256 1 128 256 256 0 0
    (by norm_num) (by norm_num) (by norm_num) (by norm_num) (by norm_num)
    _ rfl (by constructor <;> norm_num [mkStar3D]) (by constructor <;> norm_num [mkStar3D])

/-! ### Metaballs (20metaballs/effect.ts, scalar-field loop of `render`)

A metaball is its position and precomputed diameter (`radius + radius`
after flooring).  For each pixel `(x, y)` the loop sums
`diameter² / squared` over the metaballs, where
`squared = dx² + dy²`, *only when `squared > 0`* — the guard that the
metaball sitting exactly on the pixel contributes nothing instead of
dividing by zero.  The intensity is
`Math.min(255, Math.max(0, Math.floor((field / threshold) * 255)))`
with `threshold = 25`.  Over exact rationals every division the guard
admits has a positive denominator, so the whole computation is total —
the embedding's counterpart of "no NaN or Infinity reaches the color
pipeline". -/

/-- A metaball as the field loop reads it: position x, position y,
diameter. -/
structure MetaballData where
  posX : ℚ
  posY : ℚ
  diameter : ℚ
  deriving Repr, DecidableEq

/-- The inner field accumulation of `render` at pixel `(x, y)`. -/
def metaballField (balls : List MetaballData) (x y : ℚ) : ℚ :=
  balls.foldl
    (fun field ball =>
      let dx := x - ball.posX
      let dy := y - ball.posY
      let squared := dx * dx + dy * dy
      if squared > 0 then field + ball.diameter * ball.diameter / squared
      else field)
    0

/-- Constant `threshold` of 20metaballs/effect.ts. -/
def metaballThreshold : ℚ := 25

/-- The grayscale intensity written for pixel `(x, y)`:
`min(255, max(0, floor(field / threshold * 255)))`. -/
def metaballIntensity (balls : List MetaballData) (x y : ℚ) : ℤ :=
  min 255 (max 0 ⌊metaballField balls x y / metaballThreshold * 255⌋)

theorem metaballField_from (balls : List MetaballData) (x y : ℚ) (acc : ℚ)
    (hacc : 0 ≤ acc) :
    0 ≤ balls.foldl
      (fun field ball =>
        let dx := x - ball.posX
        let dy := y - ball.posY
        let squared := dx * dx + dy * dy
        if squared > 0 then field + ball.diameter * ball.diameter / squared
        else field)
      acc := by
  induction balls generalizing acc with
  | nil => simpa using hacc
  | cons ball rest ih =>
    rw [List.foldl_cons]
    apply ih
    dsimp only
    split
    · rename_i hsq
      have : 0 ≤ ball.diameter * ball.diameter / ((x - ball.posX) * (x - ball.posX) +
          (y - ball.posY) * (y - ball.posY)) := by
        apply div_nonneg (mul_self_nonneg _) hsq.le
      linarith
    · exact hacc

/-- C8: at every pixel, (i) a metaball whose squared distance to the
pixel is zero is skipped — its presence at the head of the list leaves
the accumulated field of the remaining metaballs unchanged — and
(ii) the field is a finite nonnegative rational and the grayscale
intensity written is an integer in [0, 255]. -/
theorem claim_C8_metaball_guard_and_range (balls : List MetaballData) (x y : ℚ) :
    (∀ d rest, metaballField (⟨x, y, d⟩ :: rest) x y = metaballField rest x y) ∧
    0 ≤ metaballField balls x y ∧
    0 ≤ metaballIntensity balls x y ∧ metaballIntensity balls x y ≤ 255 := by
  refine ⟨?_, ?_, ?_, ?_⟩
  · intro d rest
    rw [metaballField, metaballField, List.foldl_cons]
    simp
  · exact metaballField_from balls x y 0 le_rfl
  · rw [metaballIntensity]
    rcases le_total (255 : ℤ) (max 0 ⌊metaballField balls x y / metaballThreshold * 255⌋)
      with hm | hm
    · rw [min_eq_left hm]; norm_num
    · rw [min_eq_right hm]; exact le_max_left _ _
  · exact min_le_left _ _

/-! ### LissajousCurve (utils/path/lissajous.ts, closed-form revision)

The curve stores frequencies `a`, `b`, phase `delta`, the center and
scaling dimensions derived from the drawing area, and the accumulated
`time`.  `update(deltaTime, speed)` advances
`time = (time + deltaTime * speed) % TWOPI`, adds `TWOPI` when the JS
remainder is negative, and returns
`x = cos(a * time + delta) * dimensions.x + center.x`,
`y = cos(b * time) * dimensions.y + center.y`.
The JS `%` operator truncates the quotient toward zero (the result
carries the dividend's sign), modelled by `jsFmod`. -/

/-- JS truncation toward zero. -/
noncomputable def jsTrunc (r : ℝ) : ℤ := if r < 0 then ⌈r⌉ else ⌊r⌋

/-- The JS `%` operator on reals (Fmod: remainder with the dividend's
sign, quotient truncated toward zero). -/
noncomputable def jsFmod (x y : ℝ) : ℝ := x - y * jsTrunc (x / y)

structure LissajousCurve where
  a : ℝ
  b : ℝ
  delta : ℝ
  centerX : ℝ
  centerY : ℝ
  dimX : ℝ
  dimY : ℝ
  time : ℝ

/-- The LissajousCurve constructor: `center = (width/2, height/2)`;
`dimensions` scales the smaller half-dimension on both axes when
`uniform`, else each half-dimension, by `scale`; `time = 0`. -/
noncomputable def mkLissajousCurve (a b delta width height : ℝ)
    (uniform : Bool) (scale : ℝ) : LissajousCurve :=
  let centerX := width / 2
  let centerY := height / 2
  if uniform
    then ⟨a, b, delta, centerX, centerY,
      min centerX centerY * scale, min centerX centerY * scale, 0⟩
    else ⟨a, b, delta, centerX, centerY, centerX * scale, centerY * scale, 0⟩

/-- Method `update(deltaTime, speed)`: advances the accumulated time modulo 2π
(re-adding 2π when the JS remainder is negative) and returns the mutated
curve together with the point
`(cos(a * time + delta) * dimX + centerX, cos(b * time) * dimY + centerY)`. -/
noncomputable def LissajousCurve.update (c : LissajousCurve)
    (deltaTime speed : ℝ) : LissajousCurve × ℝ × ℝ :=
  let t0 := jsFmod (c.time + deltaTime * speed) (2 * Real.pi)
  let t := if t0 < 0 then t0 + 2 * Real.pi else t0
  ({ c with time := t },
    Real.cos (c.a * t + c.delta) * c.dimX + c.centerX,
    Real.cos (c.b * t) * c.dimY + c.centerY)

/-- Counterexample to C9: the Lissajous curve with `a = 1`, `b = 1`,
`delta = 0`, `width = 100`, `height = 100` (default `uniform = false`,
`scale = 1`), evaluated by `update` at accumulated time 0 (`deltaTime =
0`, any speed), returns the point (100, 100): the x-coordinate is
`50 + 50 * cos(0) = 100`, not the claimed 50. -/
theorem claim_C9_counterexample :
    ((mkLissajousCurve 1 1 0 100 100 false 1).update 0 1).2.1 = 100 ∧
      ((mkLissajousCurve 1 1 0 100 100 false 1).update 0 1).2 ≠ ((50 : ℝ), (100 : ℝ)) := by
  have hx : ((mkLissajousCurve 1 1 0 100 100 false 1).update 0 1).2.1 = 100 := by
    rw [mkLissajousCurve, LissajousCurve.update]
    simp only [Bool.false_eq_true, if_false]
    have hfmod : jsFmod (0 + 0 * 1) (2 * Real.pi) = 0 := by
      rw [jsFmod, jsTrunc]
      norm_num
    rw [hfmod]
    norm_num
  refine ⟨hx, fun hcon => ?_⟩
  rw [Prod.ext_iff] at hcon
  rw [hcon.1] at hx
  norm_num at hx

/-- C9 as amended: that curve at accumulated time 0 yields the point
(100, 100) — both coordinates are `center + dimension * cos(0)`
`= 50 + 50 * 1 = 100` per the stated formula. -/
theorem claim_C9_lissajous_at_zero_amended :
    ((mkLissajousCurve 1 1 0 100 100 false 1).update 0 1).2 = (100, 100) := by
  rw [mkLissajousCurve, LissajousCurve.update]
  simp only [Bool.false_eq_true, if_false]
  have hfmod : jsFmod (0 + 0 * 1) (2 * Real.pi) = 0 := by
    rw [jsFmod, jsTrunc]
    norm_num
  rw [hfmod]
  norm_num

end Canvas
